import Mathlib

/-!
Shallow embedding of the grade-application logic (`logic.py`, class `Logic`).

The GUI widgets are replaced by a `Form` record holding the raw text of each
input field; the CSV file is an `Option (List (List String))` (`none` = the
file does not exist, otherwise the list of rows, each row a list of cells);
the results table is a `Table` value.  Python exceptions that the embedded
code can raise are made explicit with `Except PyExn`.
-/

namespace GradeApp

/-- Exceptions the embedded Python code can raise. -/
inductive PyExn where
  | valueError
  | indexError
  | zeroDivisionError
  | typeError
deriving DecidableEq, Repr

/-- The raw text content of the seven input widgets
(`first_name_input`, `last_name_input`, `attempts_input`,
`score_one_input` … `score_four_input`). -/
structure Form where
  first_name_input : String
  last_name_input : String
  attempts_input : String
  score_one_input : String
  score_two_input : String
  score_three_input : String
  score_four_input : String
deriving DecidableEq, Repr

/-- Mirror of `self.score_inputs = [self.score_one_input, self.score_two_input,
self.score_three_input, self.score_four_input]` (logic.py line 36). -/
def score_inputs (f : Form) : List String :=
  [f.score_one_input, f.score_two_input, f.score_three_input, f.score_four_input]

/-- Digit string to number: folds decimal digits ('0' = code point 48). -/
def digitsVal (l : List Char) : Nat :=
  l.foldl (fun a c => 10 * a + (c.toNat - 48)) 0

/-- Non-empty and all decimal digits. -/
def isDigits (l : List Char) : Bool :=
  !l.isEmpty && l.all (fun c => c.isDigit)

/-- Drop surrounding whitespace. -/
def stripWs (l : List Char) : List Char :=
  ((l.dropWhile Char.isWhitespace).reverse.dropWhile Char.isWhitespace).reverse

/-- Models Python's built-in `int(text)` on a string: surrounding whitespace
is ignored, an optional sign is followed by decimal digits; any other text
raises `ValueError`, modelled as `none`.  (CPython additionally accepts
underscore digit separators, which no reachable claim depends on.) -/
def pyInt (s : String) : Option Int :=
  match stripWs s.toList with
  | '-' :: rest => if isDigits rest then some (-(digitsVal rest : Int)) else none
  | '+' :: rest => if isDigits rest then some (digitsVal rest : Int) else none
  | l => if isDigits l then some (digitsVal l : Int) else none

/-- The tuple returned by `validate_inputs`:
`(first_name, last_name, num_attempts, scores)`, each possibly `None`. -/
abbrev VTuple := Option String × Option String × Option Int × Option (List Int)

/-- The all-`None` tuple returned on every validation failure. -/
def noneTuple : VTuple := (none, none, none, none)

/-- Result of the score loop in `validate_inputs` (lines 140-156): either an
early `return` after `show_message` (with the message shown), or the list of
parsed scores. -/
inductive LoopRes where
  | errMsg (m : String)
  | scores (s : List Int)
deriving DecidableEq, Repr

/-- The loop `for i in range(num_attempts)` of `validate_inputs`
(logic.py lines 141-156), processing indices `i, i+1, …` with `r` iterations
left.  `inputs[i]` out of bounds raises `IndexError`; an empty score text,
a non-integer score text, or a score outside `[0, 100]` shows a message and
returns; otherwise the parsed score is appended. -/
def scoresFrom (inputs : List String) : Nat → Nat → Except PyExn LoopRes
  | _, 0 => .ok (.scores [])
  | i, r + 1 =>
    match inputs[i]? with
    | none => .error .indexError
    | some score_text =>
      if score_text = "" then
        .ok (.errMsg ("Please enter a score for attempt " ++ toString (i + 1)))
      else
        match pyInt score_text with
        | none =>
          .ok (.errMsg ("Invalid score for attempt " ++ toString (i + 1) ++
            ". Please enter a valid number."))
        | some score =>
          if 0 ≤ score ∧ score ≤ 100 then
            match scoresFrom inputs (i + 1) r with
            | .ok (.scores l) => .ok (.scores (score :: l))
            | other => other
          else
            .ok (.errMsg ("Invalid score for attempt " ++ toString (i + 1) ++
              ". Score must be between 0 and 100."))

/-- Embedding of `Logic.validate_inputs` (logic.py lines 115-158).  Returns the tuple and
the message passed to `show_message` (or `none` when no message is shown).
Note that `int(self.attempts_input.text())` at line 138 is *not* inside a
`try`, so a non-numeric attempts text raises `ValueError`. -/
def validate_inputs (f : Form) : Except PyExn (VTuple × Option String) :=
  if f.first_name_input = "" then
    .ok (noneTuple, some "Please provide the first name")
  else if f.last_name_input = "" then
    .ok (noneTuple, some "Please provide the last name")
  else if f.attempts_input = "" then
    .ok (noneTuple, some "Please enter the number of attempts")
  else
    match pyInt f.attempts_input with
    | none => .error .valueError
    | some num_attempts =>
      -- `range(num_attempts)` iterates `max(0, num_attempts)` times
      match scoresFrom (score_inputs f) 0 num_attempts.toNat with
      | .error e => .error e
      | .ok (.errMsg m) => .ok (noneTuple, some m)
      | .ok (.scores scores) =>
        .ok ((some f.first_name_input, some f.last_name_input,
              some num_attempts, some scores), none)

/-- Renders `t` hundredths as a decimal numeral with exactly two decimal
places, for `t ≥ 0`: the value of `f"{x:.2f}"` at `x = t / 100`. -/
def renderCenti (t : Int) : String :=
  toString (t / 100) ++ "." ++
    (if (t % 100).toNat < 10 then "0" else "") ++ toString (t % 100).toNat

/-- Embedding of `Logic.scores_summary` (logic.py lines 160-177).  Only `scores` is
checked against `None`; an empty scores list raises `ZeroDivisionError` at
`sum(scores) / len(scores)`.

The Python source computes `average = sum(scores) / len(scores)` in floating
point and formats it with `f"{average:.2f}"`.  Here this is modelled exactly
over the integers as `renderCenti ((200 * sum + len) / (2 * len))`, the
correctly rounded number of hundredths: for every reachable input
(`0 ≤ sum ≤ 400`, `1 ≤ len ≤ 4`) the quantity `100 * sum / len` is at least
`1/6` away from every half-integer, while the double-precision evaluation of
`sum / len` carries a relative error below `2^-50`, so the two computations
agree on all reachable inputs (there are no decimal ties to break). -/
def scores_summary (f : Form) : Except PyExn (Option (String × String × String)) :=
  match validate_inputs f with
  | .error e => .error e
  | .ok ((_, _, _, none), _) => .ok none
  | .ok ((_, _, _, some []), _) => .error .zeroDivisionError
  | .ok ((_, _, _, some (x :: rest)), _) =>
    let scores := x :: rest
    let s : Int := scores.foldl (· + ·) 0
    let n : Int := scores.length
    let avg_score := renderCenti ((200 * s + n) / (2 * n))
    let best_score := toString (rest.foldl max x)
    let low_score := toString (rest.foldl min x)
    .ok (some (avg_score, best_score, low_score))

/-- The CSV header row (logic.py lines 191-192). -/
def csvHeaders : List String :=
  ["First Name", "Last Name", "Attempt 1", "Attempt 2", "Attempt 3",
   "Attempt 4", "Best", "Average", "Low"]

/-- Result of `save_to_csv`: the resulting file contents and either the
message shown in the message label, or the exception that propagated. -/
structure SaveResult where
  fs : Option (List (List String))
  outcome : Except PyExn (Option String)
deriving Repr

/-- Embedding of `Logic.save_to_csv` (logic.py lines 179-215) acting on the file state
`fs` (`none` = `grades.csv` does not exist).  On validation failure it
returns with the file untouched (the message was already shown by
`validate_inputs`); otherwise it writes the header row first when the file
does not exist, then appends the data row. -/
def save_to_csv (f : Form) (fs : Option (List (List String))) : SaveResult :=
  match validate_inputs f with
  | .error e => ⟨fs, .error e⟩
  | .ok ((some first_name, some last_name, some num_attempts, some scores), _) =>
    match scores_summary f with
    | .error e => ⟨fs, .error e⟩
    | .ok none => ⟨fs, .error .typeError⟩  -- unpacking `None` raises TypeError
    | .ok (some (avg_score, best_score, low_score)) =>
      -- `scores + ['NA'] * (4 - num_attempts)`; csv.writer stringifies ints
      let attempts_filled := scores.map toString ++
        List.replicate (4 - num_attempts).toNat "NA"
      let row := [first_name, last_name] ++ attempts_filled ++
        [best_score, avg_score, low_score]
      let contents := match fs with
        | none => [csvHeaders]
        | some rows => rows
      ⟨some (contents ++ [row]), .ok (some "Data saved to grades.csv!")⟩
  | .ok (_, msg) => ⟨fs, .ok msg⟩

/-- The grade bucket computed per score in `Logic.output_current_data`
(logic.py lines 231-242). -/
def grade (score : Int) : String :=
  if score ≥ 90 then "A"
  else if score ≥ 80 then "B"
  else if score ≥ 70 then "C"
  else if score ≥ 60 then "D"
  else "F"

/-- The results table widget: column count, horizontal header labels, and
rows of cells (`none` = cell never set by `setItem`). -/
structure Table where
  columnCount : Nat
  headers : List String
  rows : List (List (Option String))
deriving DecidableEq, Repr

/-- Embedding of `Logic.output_current_data` (logic.py lines 217-259) acting on the
current table state.  On validation failure the table is untouched; on
success the table is rebuilt with one row per attempt plus a summary row.
(`scores[i]` and `grades[i]` are modelled with `getD`; the indices are in
bounds because `validate_inputs` returns `num_attempts.toNat` scores.) -/
def output_current_data (f : Form) (tbl : Table) : Table × Except PyExn Unit :=
  match validate_inputs f with
  | .error e => (tbl, .error e)
  | .ok ((some _, some _, some num_attempts, some scores), _) =>
    match scores_summary f with
    | .error e => (tbl, .error e)
    | .ok none => (tbl, .error .typeError)
    | .ok (some (avg_score, best_score, low_score)) =>
      let grades := scores.map grade
      let attemptRows := (List.range num_attempts.toNat).map fun i =>
        [some ("Attempt " ++ toString (i + 1)), some (toString (scores.getD i 0)),
         some (grades.getD i ""), none, none, none]
      let summaryRow :=
        [none, none, none, some best_score, some avg_score, some low_score]
      (⟨6, ["Attempt", "Score", "Grade", "Best", "Average", "Low"],
        attemptRows ++ [summaryRow]⟩, .ok ())
  | .ok (_, _) => (tbl, .ok ())

/-! ### Specification-side vocabulary for the validation precedence order -/

/-- The text of score field `i` (0-based). -/
def scoreText (f : Form) (i : Nat) : String :=
  (score_inputs f).getD i ""

/-- Score field `j` of `inputs` passes all three per-attempt checks:
non-empty, parses as an integer, and lies in `[0, 100]`. -/
def scoreOk (inputs : List String) (j : Nat) : Prop :=
  inputs.getD j "" ≠ "" ∧
    ∃ v, pyInt (inputs.getD j "") = some v ∧ 0 ≤ v ∧ v ≤ 100

/-- The message `validate_inputs` shows for the first failing check of score
field `j` (meaningful when `¬ scoreOk inputs j`). -/
def scoreErr (inputs : List String) (j : Nat) : String :=
  if inputs.getD j "" = "" then
    "Please enter a score for attempt " ++ toString (j + 1)
  else
    match pyInt (inputs.getD j "") with
    | none => "Invalid score for attempt " ++ toString (j + 1) ++
        ". Please enter a valid number."
    | some _ => "Invalid score for attempt " ++ toString (j + 1) ++
        ". Score must be between 0 and 100."

/-- The parsed value of score field `j` (meaningful when it parses). -/
def parsedAt (inputs : List String) (j : Nat) : Int :=
  (pyInt (inputs.getD j "")).getD 0

/-- The individual field violations of the specification's precedence order
(`i` is a 0-based attempt index). -/
inductive Viol where
  | firstMissing
  | lastMissing
  | attemptsMissing
  | scoreMissing (i : Nat)
  | scoreNotInt (i : Nat)
  | scoreRange (i : Nat)
deriving DecidableEq, Repr

/-- Precedence rank of a violation: missing first name, missing last name,
missing attempt count, then per attempt index in order: missing score,
non-integer score, out-of-range score. -/
def rank : Viol → Nat
  | .firstMissing => 0
  | .lastMissing => 1
  | .attemptsMissing => 2
  | .scoreMissing i => 3 * i + 3
  | .scoreNotInt i => 3 * i + 4
  | .scoreRange i => 3 * i + 5

/-- The error message the specification associates with each violation. -/
def msgOf : Viol → String
  | .firstMissing => "Please provide the first name"
  | .lastMissing => "Please provide the last name"
  | .attemptsMissing => "Please enter the number of attempts"
  | .scoreMissing i => "Please enter a score for attempt " ++ toString (i + 1)
  | .scoreNotInt i => "Invalid score for attempt " ++ toString (i + 1) ++
      ". Please enter a valid number."
  | .scoreRange i => "Invalid score for attempt " ++ toString (i + 1) ++
      ". Score must be between 0 and 100."

/-- Predicate `violates f n e`: field violation `e` is present in form `f`, where `n`
is the number of attempts being validated. -/
def violates (f : Form) (n : Nat) : Viol → Prop
  | .firstMissing => f.first_name_input = ""
  | .lastMissing => f.last_name_input = ""
  | .attemptsMissing => f.attempts_input = ""
  | .scoreMissing i => i < n ∧ scoreText f i = ""
  | .scoreNotInt i => i < n ∧ scoreText f i ≠ "" ∧ pyInt (scoreText f i) = none
  | .scoreRange i => i < n ∧ ∃ v, pyInt (scoreText f i) = some v ∧ ¬(0 ≤ v ∧ v ≤ 100)

/-! ### Helper lemmas -/

theorem foldl_max_spec (l : List Int) :
    ∀ x : Int, x ≤ l.foldl max x ∧ ∀ v ∈ l, v ≤ l.foldl max x := by
  induction l with
  | nil => intro x; simp
  | cons a l ih =>
    intro x
    obtain ⟨h1, h2⟩ := ih (max x a)
    refine ⟨le_trans (le_max_left x a) h1, ?_⟩
    intro v hv
    rcases List.mem_cons.mp hv with rfl | hv
    · exact le_trans (le_max_right x v) h1
    · exact h2 v hv

theorem foldl_max_mem (l : List Int) :
    ∀ x : Int, l.foldl max x ∈ x :: l := by
  induction l with
  | nil => intro x; simp
  | cons a l ih =>
    intro x
    simp only [List.foldl_cons]
    have h := ih (max x a)
    rcases List.mem_cons.mp h with h | h
    · rw [h]
      rcases max_choice x a with h' | h' <;> rw [h'] <;> simp
    · simp [h]

theorem foldl_min_spec (l : List Int) :
    ∀ x : Int, l.foldl min x ≤ x ∧ ∀ v ∈ l, l.foldl min x ≤ v := by
  induction l with
  | nil => intro x; simp
  | cons a l ih =>
    intro x
    obtain ⟨h1, h2⟩ := ih (min x a)
    refine ⟨le_trans h1 (min_le_left x a), ?_⟩
    intro v hv
    rcases List.mem_cons.mp hv with rfl | hv
    · exact le_trans h1 (min_le_right x v)
    · exact h2 v hv

theorem foldl_min_mem (l : List Int) :
    ∀ x : Int, l.foldl min x ∈ x :: l := by
  induction l with
  | nil => intro x; simp
  | cons a l ih =>
    intro x
    simp only [List.foldl_cons]
    have h := ih (min x a)
    rcases List.mem_cons.mp h with h | h
    · rw [h]
      rcases min_choice x a with h' | h' <;> rw [h'] <;> simp
    · simp [h]

theorem foldl_add_eq_sum (l : List Int) :
    ∀ a : Int, l.foldl (· + ·) a = a + l.sum := by
  induction l with
  | nil => intro a; simp
  | cons x l ih => intro a; simp [ih (a + x)]; ring

/-- The quotient `(200 * S + n) / (2 * n)` is `100 * S / n` rounded to the nearest
integer: it is within half a unit on each side. -/
theorem centi_round_bounds (S n : Int) (hn : 0 < n) :
    2 * n * ((200 * S + n) / (2 * n)) ≤ 200 * S + n ∧
    200 * S ≤ 2 * n * ((200 * S + n) / (2 * n)) + n := by
  have h2n : 0 < 2 * n := by omega
  have h1 := Int.ediv_add_emod (200 * S + n) (2 * n)
  have h2 := Int.emod_nonneg (200 * S + n) (by omega : 2 * n ≠ 0)
  have h3 := Int.emod_lt_of_pos (200 * S + n) h2n
  omega

/-! ### Characterising the score loop -/

theorem scoresFrom_ok_spec (inputs : List String) :
    ∀ r i s, scoresFrom inputs i r = .ok (.scores s) →
      s.length = r ∧ ∀ v ∈ s, 0 ≤ v ∧ v ≤ 100 := by
  intro r
  induction r with
  | zero =>
    intro i s h
    simp [scoresFrom] at h
    subst h
    simp
  | succ r ih =>
    intro i s h
    rw [scoresFrom] at h
    split at h
    · simp at h
    · split at h
      · simp at h
      · split at h
        · simp at h
        next v hp =>
          split at h
          next hr =>
            split at h
            next l hrec =>
              simp only [Except.ok.injEq, LoopRes.scores.injEq] at h
              obtain ⟨hl, hall⟩ := ih _ l hrec
              subst h
              refine ⟨by simp [hl], ?_⟩
              intro w hw
              rcases List.mem_cons.mp hw with rfl | hw
              · exact hr
              · exact hall w hw
            next x hne => exact (hne s h).elim
          next hr => simp at h

theorem scoresFrom_ne_error (inputs : List String) :
    ∀ r i, i + r ≤ inputs.length → ∀ e, scoresFrom inputs i r ≠ .error e := by
  intro r
  induction r with
  | zero => intro i _ e; simp [scoresFrom]
  | succ r ih =>
    intro i hle e
    have hi : i < inputs.length := by omega
    rw [scoresFrom]
    split
    next hx => rw [List.getElem?_eq_none_iff] at hx; omega
    next t hx =>
      split
      · simp
      · split
        · simp
        next v hp =>
          split
          next hr =>
            split
            next l hrec => simp
            next x hne =>
              intro hcontra
              exact ih (i + 1) (by omega) e hcontra
          next hr => simp

theorem scoresFrom_ok_bound (inputs : List String) :
    ∀ r i s, scoresFrom inputs i r = .ok (.scores s) →
      r = 0 ∨ i + r ≤ inputs.length := by
  intro r
  induction r with
  | zero => intro i s _; left; rfl
  | succ r ih =>
    intro i s h
    right
    rw [scoresFrom] at h
    split at h
    next hx => simp at h
    next t hx =>
      have hi : i < inputs.length := by
        by_contra hge
        rw [List.getElem?_eq_none_iff.mpr (by omega)] at hx
        exact Option.noConfusion hx
      split at h
      · simp at h
      · split at h
        · simp at h
        next v hp =>
          split at h
          next hr =>
            split at h
            next l hrec =>
              rcases ih (i + 1) l hrec with h0 | hbound <;> omega
            next x hne => exact (hne s h).elim
          next hr => simp at h

/-! ### Characterising `validate_inputs` -/

theorem validate_ok_record (f : Form) (a b : String) (n : Int) (s : List Int)
    (m : Option String)
    (h : validate_inputs f = .ok ((some a, some b, some n, some s), m)) :
    a = f.first_name_input ∧ b = f.last_name_input ∧ m = none ∧
    pyInt f.attempts_input = some n ∧
    scoresFrom (score_inputs f) 0 n.toNat = .ok (.scores s) ∧
    f.first_name_input ≠ "" ∧ f.last_name_input ≠ "" ∧ f.attempts_input ≠ "" := by
  unfold validate_inputs at h
  split at h
  · simp [noneTuple] at h
  split at h
  · simp [noneTuple] at h
  split at h
  · simp [noneTuple] at h
  next h1 h2 h3 =>
    split at h
    · simp at h
    next num hpy =>
      split at h
      · simp at h
      · simp [noneTuple] at h
      next scores hloop =>
        simp only [Except.ok.injEq, Prod.mk.injEq, Option.some.injEq] at h
        obtain ⟨⟨ha, hb, hn, hs⟩, hm⟩ := h
        subst ha; subst hb; subst hn; subst hs
        exact ⟨rfl, rfl, hm.symm, hpy, hloop, h1, h2, h3⟩

theorem validate_ok_shape (f : Form) (out : VTuple × Option String)
    (h : validate_inputs f = .ok out) :
    (out.1 = noneTuple ∧ ∃ msg, out.2 = some msg) ∨
    (∃ n s, out = ((some f.first_name_input, some f.last_name_input,
        some n, some s), none) ∧
      s.length = n.toNat ∧ ∀ v ∈ s, 0 ≤ v ∧ v ≤ 100) := by
  unfold validate_inputs at h
  split at h
  · injection h with h; subst h; exact Or.inl ⟨rfl, _, rfl⟩
  split at h
  · injection h with h; subst h; exact Or.inl ⟨rfl, _, rfl⟩
  split at h
  · injection h with h; subst h; exact Or.inl ⟨rfl, _, rfl⟩
  · split at h
    · simp at h
    next num hpy =>
      split at h
      · simp at h
      · injection h with h; subst h; exact Or.inl ⟨rfl, _, rfl⟩
      next scores hloop =>
        injection h with h; subst h
        obtain ⟨hlen, hall⟩ := scoresFrom_ok_spec _ _ _ _ hloop
        exact Or.inr ⟨num, scores, rfl, hlen, hall⟩

theorem validate_total (f : Form)
    (hcase : f.attempts_input = "" ∨
      ∃ n : Int, pyInt f.attempts_input = some n ∧ n ≤ 4) :
    ∃ out, validate_inputs f = .ok out := by
  unfold validate_inputs
  split
  · exact ⟨_, rfl⟩
  split
  · exact ⟨_, rfl⟩
  split
  · exact ⟨_, rfl⟩
  next h1 h2 h3 =>
    rcases hcase with hempty | ⟨n, hpy, hn4⟩
    · exact absurd hempty h3
    · rw [hpy]
      dsimp only
      have hbound : (0 : Nat) + n.toNat ≤ (score_inputs f).length := by
        simp [score_inputs]
        omega
      rcases hval : scoresFrom (score_inputs f) 0 n.toNat with e | lr
      · exact absurd hval (scoresFrom_ne_error _ _ _ hbound e)
      · cases lr <;> exact ⟨_, rfl⟩

/-! ### Characterising `scores_summary` and `save_to_csv` -/

theorem scores_summary_of_record (f : Form) (a b : String) (n : Int)
    (x : Int) (rest : List Int)
    (h : validate_inputs f = .ok ((some a, some b, some n, some (x :: rest)), none)) :
    scores_summary f = .ok (some
      (renderCenti ((200 * ((x :: rest).foldl (· + ·) 0) + ((x :: rest).length : Int)) /
        (2 * ((x :: rest).length : Int))),
       toString (rest.foldl max x), toString (rest.foldl min x))) := by
  unfold scores_summary
  rw [h]

theorem save_spec (f : Form) (fs : Option (List (List String)))
    (a b : String) (n : Int) (s : List Int)
    (h : validate_inputs f = .ok ((some a, some b, some n, some s), none))
    (hn : 1 ≤ n) :
    ∃ best avg low, scores_summary f = .ok (some (avg, best, low)) ∧
      save_to_csv f fs = ⟨some ((match fs with
          | none => [csvHeaders]
          | some rows => rows) ++
        [[a, b] ++ s.map toString ++ List.replicate (4 - n).toNat "NA" ++
          [best, avg, low]]), .ok (some "Data saved to grades.csv!")⟩ := by
  obtain ⟨-, -, -, -, hloop, -, -, -⟩ := validate_ok_record f a b n s none h
  obtain ⟨hlen, -⟩ := scoresFrom_ok_spec _ _ _ _ hloop
  cases s with
  | nil =>
    exfalso
    simp at hlen
    omega
  | cons x rest =>
    have hsum := scores_summary_of_record f a b n x rest h
    refine ⟨_, _, _, hsum, ?_⟩
    unfold save_to_csv
    rw [h]
    dsimp only
    rw [hsum]
    simp [List.append_assoc]

/-! ### The score loop reports exactly the first failing score field -/

theorem pyInt_empty : pyInt "" = none := rfl

theorem getD_getElem (inputs : List String) (j : Nat) (hj : j < inputs.length) :
    inputs[j]? = some (inputs.getD j "") := by
  rw [List.getElem?_eq_getElem hj, List.getD_eq_getElem _ _ hj]

theorem scoresFrom_all_ok (inputs : List String) :
    ∀ r i, i + r ≤ inputs.length →
      (∀ j, i ≤ j → j < i + r → scoreOk inputs j) →
      scoresFrom inputs i r =
        .ok (.scores ((List.range r).map fun k => parsedAt inputs (i + k))) := by
  intro r
  induction r with
  | zero => intro i _ _; simp [scoresFrom]
  | succ r ih =>
    intro i hle hall
    have hi : i < inputs.length := by omega
    obtain ⟨hne, v, hv, hv0, hv100⟩ := hall i (le_refl i) (by omega)
    rw [scoresFrom, getD_getElem inputs i hi]
    dsimp only
    rw [if_neg hne, hv]
    dsimp only
    rw [if_pos ⟨hv0, hv100⟩,
      ih (i + 1) (by omega) (fun j hj1 hj2 => hall j (by omega) (by omega))]
    dsimp only
    have hv' : parsedAt inputs i = v := by
      unfold parsedAt
      rw [hv]
      rfl
    rw [List.range_succ_eq_map]
    simp only [List.map_cons, List.map_map, Nat.add_zero, hv']
    have hfun : ((fun k => parsedAt inputs (i + k)) ∘ Nat.succ) =
        fun k => parsedAt inputs (i + 1 + k) := by
      funext k
      simp only [Function.comp]
      congr 1
      omega
    rw [hfun]

theorem scoresFrom_first_bad (inputs : List String) :
    ∀ r i j, i ≤ j → j < i + r → j < inputs.length →
      (∀ k, i ≤ k → k < j → scoreOk inputs k) →
      ¬ scoreOk inputs j →
      scoresFrom inputs i r = .ok (.errMsg (scoreErr inputs j)) := by
  intro r
  induction r with
  | zero => intro i j h1 h2 _ _ _; omega
  | succ r ih =>
    intro i j hij hjr hjlen hearly hbad
    have hi : i < inputs.length := by omega
    rw [scoresFrom, getD_getElem inputs i hi]
    dsimp only
    rcases Nat.lt_or_ge i j with hlt | hge
    · obtain ⟨hne, v, hv, h0, h100⟩ := hearly i (le_refl i) hlt
      rw [if_neg hne, hv]
      dsimp only
      rw [if_pos ⟨h0, h100⟩,
        ih (i + 1) j (by omega) (by omega) hjlen
          (fun k hk1 hk2 => hearly k (by omega) hk2) hbad]
    · have hij' : i = j := by omega
      subst hij'
      by_cases ht : inputs.getD i "" = ""
      · rw [if_pos ht]
        unfold scoreErr
        rw [if_pos ht]
      · rw [if_neg ht]
        rcases hp : pyInt (inputs.getD i "") with _ | v
        · dsimp only
          unfold scoreErr
          rw [if_neg ht, hp]
        · dsimp only
          have hnr : ¬ (0 ≤ v ∧ v ≤ 100) := by
            intro hr
            exact hbad ⟨ht, v, hp, hr.1, hr.2⟩
          rw [if_neg hnr]
          unfold scoreErr
          rw [if_neg ht, hp]

theorem scoreOk_dichotomy (inputs : List String) :
    ∀ r i, (∀ j, i ≤ j → j < i + r → scoreOk inputs j) ∨
      (∃ j, i ≤ j ∧ j < i + r ∧ ¬ scoreOk inputs j ∧
        ∀ k, i ≤ k → k < j → scoreOk inputs k) := by
  intro r
  induction r with
  | zero => intro i; left; intro j h1 h2; omega
  | succ r ih =>
    intro i
    by_cases hok : scoreOk inputs i
    · rcases ih (i + 1) with hall | ⟨j, hj1, hj2, hbad, hmin⟩
      · left
        intro j hj1 hj2
        rcases Nat.eq_or_lt_of_le hj1 with rfl | hlt
        · exact hok
        · exact hall j (by omega) (by omega)
      · right
        refine ⟨j, by omega, by omega, hbad, fun k hk1 hk2 => ?_⟩
        rcases Nat.eq_or_lt_of_le hk1 with rfl | hlt
        · exact hok
        · exact hmin k (by omega) hk2
    · right
      exact ⟨i, le_refl i, by omega, hok, fun k hk1 hk2 => absurd hk2 (by omega)⟩

/-- Every violation present in a form whose three name/count fields are
filled is a per-score violation: it identifies a failing score index `k`,
and its rank locates it in the precedence order. -/
theorem violates_rank_lower (f : Form) (n : Nat) (e' : Viol)
    (h : violates f n e')
    (hf : f.first_name_input ≠ "") (hl : f.last_name_input ≠ "")
    (ha : f.attempts_input ≠ "") :
    ∃ k, k < n ∧ ¬ scoreOk (score_inputs f) k ∧ 3 * k + 3 ≤ rank e' ∧
      (rank e' = 3 * k + 3 → (score_inputs f).getD k "" = "") ∧
      (rank e' = 3 * k + 4 → pyInt ((score_inputs f).getD k "") = none) := by
  cases e' with
  | firstMissing => exact absurd h hf
  | lastMissing => exact absurd h hl
  | attemptsMissing => exact absurd h ha
  | scoreMissing k =>
    obtain ⟨hk, ht⟩ := h
    simp only [scoreText] at ht
    refine ⟨k, hk, fun hok => hok.1 ht, ?_, fun _ => ht, fun hc => ?_⟩
    · simp only [rank]
      omega
    · simp only [rank] at hc
      omega
  | scoreNotInt k =>
    obtain ⟨hk, ht, hp⟩ := h
    simp only [scoreText] at ht hp
    refine ⟨k, hk, ?_, ?_, fun hc => ?_, fun _ => hp⟩
    · rintro ⟨-, v, hv, -⟩
      rw [hp] at hv
      exact Option.noConfusion hv
    · simp only [rank]
      omega
    · simp only [rank] at hc
      omega
  | scoreRange k =>
    obtain ⟨hk, v, hv, hnr⟩ := h
    simp only [scoreText] at hv
    refine ⟨k, hk, ?_, ?_, fun hc => ?_, fun hc => ?_⟩
    · rintro ⟨-, w, hw, h0, h100⟩
      rw [hv] at hw
      cases hw
      exact hnr ⟨h0, h100⟩
    · simp only [rank]
      omega
    · simp only [rank] at hc
      omega
    · simp only [rank] at hc
      omega

/-- The first failing score index yields the precedence-minimal violation,
with the message `validate_inputs` shows for it. -/
theorem minimal_kind (f : Form) (n : Nat) (j : Nat) (hj : j < n)
    (hbad : ¬ scoreOk (score_inputs f) j)
    (hmin : ∀ k, k < j → scoreOk (score_inputs f) k)
    (hf : f.first_name_input ≠ "") (hl : f.last_name_input ≠ "")
    (ha : f.attempts_input ≠ "") :
    ∃ e, violates f n e ∧ msgOf e = scoreErr (score_inputs f) j ∧
      ∀ e', violates f n e' → rank e ≤ rank e' := by
  have hmono : ∀ e', violates f n e' →
      ∃ k, j ≤ k ∧ 3 * k + 3 ≤ rank e' ∧
        (rank e' = 3 * k + 3 → (score_inputs f).getD k "" = "") ∧
        (rank e' = 3 * k + 4 → pyInt ((score_inputs f).getD k "") = none) := by
    intro e' he'
    obtain ⟨k, hk, hbadk, hrk, h3, h4⟩ := violates_rank_lower f n e' he' hf hl ha
    refine ⟨k, ?_, hrk, h3, h4⟩
    by_contra hkj
    exact hbadk (hmin k (by omega))
  by_cases ht : (score_inputs f).getD j "" = ""
  · refine ⟨.scoreMissing j, ⟨hj, by simp only [scoreText]; exact ht⟩,
      by unfold msgOf scoreErr; rw [if_pos ht], ?_⟩
    intro e' he'
    obtain ⟨k, hk, hrk, -, -⟩ := hmono e' he'
    have hre : rank (Viol.scoreMissing j) = 3 * j + 3 := rfl
    omega
  · rcases hp : pyInt ((score_inputs f).getD j "") with _ | v
    · refine ⟨.scoreNotInt j, ⟨hj, by simp only [scoreText]; exact ht,
          by simp only [scoreText]; exact hp⟩,
        by unfold msgOf scoreErr; rw [if_neg ht, hp], ?_⟩
      intro e' he'
      obtain ⟨k, hk, hrk, h3, -⟩ := hmono e' he'
      have hre : rank (Viol.scoreNotInt j) = 3 * j + 4 := rfl
      rcases Nat.lt_or_ge k (j + 1) with hkj | hkj
      · have hkj' : k = j := by omega
        rcases Nat.lt_or_ge (rank e') (3 * k + 4) with hr4 | hr4
        · have h33 : rank e' = 3 * k + 3 := by omega
          have hemp := h3 h33
          rw [hkj'] at hemp
          exact absurd hemp ht
        · omega
      · omega
    · have hnr : ¬ (0 ≤ v ∧ v ≤ 100) := by
        intro hr
        exact hbad ⟨ht, v, hp, hr.1, hr.2⟩
      refine ⟨.scoreRange j, ⟨hj, v, by simp only [scoreText]; exact hp, hnr⟩,
        by unfold msgOf scoreErr; rw [if_neg ht, hp], ?_⟩
      intro e' he'
      obtain ⟨k, hk, hrk, h3, h4⟩ := hmono e' he'
      have hre : rank (Viol.scoreRange j) = 3 * j + 5 := rfl
      rcases Nat.lt_or_ge k (j + 1) with hkj | hkj
      · have hkj' : k = j := by omega
        rcases Nat.lt_or_ge (rank e') (3 * k + 4) with hr4 | hr4
        · have h33 : rank e' = 3 * k + 3 := by omega
          have hemp := h3 h33
          rw [hkj'] at hemp
          exact absurd hemp ht
        · rcases Nat.lt_or_ge (rank e') (3 * k + 5) with hr5 | hr5
          · have h34 : rank e' = 3 * k + 4 := by omega
            have hnone := h4 h34
            rw [hkj'] at hnone
            rw [hnone] at hp
            exact Option.noConfusion hp
          · omega
      · omega

/-! ### Claim theorems -/

/-- C1, counterexample: the claim quantifies over *all* raw field texts, but
with first and last name filled and the attempt-count text `"abc"`,
`validate_inputs` raises an uncaught `ValueError` at
`int(self.attempts_input.text())` (logic.py line 138): it produces neither a
fully valid record nor an error message. -/
theorem C1_counterexample :
    validate_inputs ⟨"x", "y", "abc", "", "", "", ""⟩ = .error .valueError ∧
    ∀ out, validate_inputs ⟨"x", "y", "abc", "", "", "", ""⟩ ≠ .ok out := by
  refine ⟨rfl, fun out h => ?_⟩
  exact Except.noConfusion
    (h : (Except.error PyExn.valueError : Except PyExn (VTuple × Option String)) = .ok out)

/-- C1 (amended): for raw field texts whose attempt-count text is empty or
parses as an integer between 1 and 4, validation produces either a fully
valid record (names as typed, scores parsed in order, each in [0,100]) or a
single error for the precedence-minimal violation: missing first name, then
missing last name, then missing attempt count, then per attempt index in
order: missing score, then non-integer score, then score outside [0,100];
only that first violation is reported. -/
theorem C1_first_violation (f : Form) (n : Nat)
    (hcase : (f.attempts_input = "" ∧ n = 0) ∨
      (pyInt f.attempts_input = some (n : Int) ∧ 1 ≤ n ∧ n ≤ 4)) :
    (∃ e, violates f n e ∧ (∀ e', violates f n e' → rank e ≤ rank e') ∧
      validate_inputs f = .ok (noneTuple, some (msgOf e))) ∨
    ((∀ e, ¬ violates f n e) ∧ ∃ s : List Int,
      validate_inputs f = .ok ((some f.first_name_input, some f.last_name_input,
        some (n : Int), some s), none) ∧
      s.length = n ∧ (∀ k, k < n → pyInt (scoreText f k) = some (s.getD k 0)) ∧
      ∀ v ∈ s, 0 ≤ v ∧ v ≤ 100) := by
  by_cases hf : f.first_name_input = ""
  · left
    refine ⟨.firstMissing, hf, fun e' _ => Nat.zero_le _, ?_⟩
    unfold validate_inputs
    rw [if_pos hf]
    rfl
  by_cases hl : f.last_name_input = ""
  · left
    refine ⟨.lastMissing, hl, ?_, ?_⟩
    · intro e' he'
      cases e' <;>
        first
          | exact absurd he' hf
          | (simp only [rank]; omega)
    · unfold validate_inputs
      rw [if_neg hf, if_pos hl]
      rfl
  rcases hcase with ⟨ha, hn0⟩ | ⟨hpy, hn1, hn4⟩
  · subst hn0
    left
    refine ⟨.attemptsMissing, ha, ?_, ?_⟩
    · intro e' he'
      cases e' with
      | firstMissing => exact absurd he' hf
      | lastMissing => exact absurd he' hl
      | attemptsMissing => exact le_refl _
      | scoreMissing i => obtain ⟨hi, -⟩ := he'; omega
      | scoreNotInt i => obtain ⟨hi, -⟩ := he'; omega
      | scoreRange i => obtain ⟨hi, -⟩ := he'; omega
    · unfold validate_inputs
      rw [if_neg hf, if_neg hl, if_pos ha]
      rfl
  · have ha : f.attempts_input ≠ "" := by
      intro h0
      rw [h0, pyInt_empty] at hpy
      exact Option.noConfusion hpy
    have hlen4 : (score_inputs f).length = 4 := rfl
    have htn : ((n : Int)).toNat = n := by omega
    rcases scoreOk_dichotomy (score_inputs f) n 0 with hall | ⟨j, hj0, hjn, hbad, hmin⟩
    · right
      have hloop := scoresFrom_all_ok (score_inputs f) n 0 (by omega)
        (fun j hj1 hj2 => hall j hj1 hj2)
      simp only [Nat.zero_add] at hloop
      constructor
      · intro e he
        cases e with
        | firstMissing => exact hf he
        | lastMissing => exact hl he
        | attemptsMissing => exact ha he
        | scoreMissing i =>
          obtain ⟨hi, ht⟩ := he
          obtain ⟨hne, -⟩ := hall i (Nat.zero_le i) (by omega)
          unfold scoreText at ht
          exact hne ht
        | scoreNotInt i =>
          obtain ⟨hi, ht, hp⟩ := he
          obtain ⟨-, v, hv, -⟩ := hall i (Nat.zero_le i) (by omega)
          unfold scoreText at hp
          rw [hp] at hv
          exact Option.noConfusion hv
        | scoreRange i =>
          obtain ⟨hi, v, hv, hnr⟩ := he
          obtain ⟨-, w, hw, h0, h100⟩ := hall i (Nat.zero_le i) (by omega)
          unfold scoreText at hv
          rw [hv] at hw
          cases hw
          exact hnr ⟨h0, h100⟩
      · refine ⟨(List.range n).map (fun k => parsedAt (score_inputs f) k),
          ?_, by simp, ?_, ?_⟩
        · unfold validate_inputs
          rw [if_neg hf, if_neg hl, if_neg ha, hpy]
          dsimp only
          rw [htn, hloop]
        · intro k hk
          obtain ⟨-, v, hv, -⟩ := hall k (Nat.zero_le k) (by omega)
          have hget : ((List.range n).map
              (fun k => parsedAt (score_inputs f) k)).getD k 0 =
                parsedAt (score_inputs f) k := by
            rw [List.getD_eq_getElem?_getD, List.getElem?_map,
              List.getElem?_range hk]
            rfl
          rw [hget]
          unfold scoreText
          rw [hv]
          unfold parsedAt
          rw [hv]
          rfl
        · intro v hv
          obtain ⟨-, hallv⟩ := scoresFrom_ok_spec _ _ _ _ hloop
          exact hallv v hv
    · left
      obtain ⟨e, hve, hmsg, hminimal⟩ := minimal_kind f n j (by omega) hbad
        (fun k hk => hmin k (Nat.zero_le k) hk) hf hl ha
      refine ⟨e, hve, hminimal, ?_⟩
      have hloop := scoresFrom_first_bad (score_inputs f) n 0 j (Nat.zero_le j)
        (by omega) (by omega)
        (fun k hk1 hk2 => hmin k hk1 hk2) hbad
      unfold validate_inputs
      rw [if_neg hf, if_neg hl, if_neg ha, hpy]
      dsimp only
      rw [htn, hloop, hmsg]

/-- C1, witness: on the form `("a", "b", attempts "2", scores "50", "")`,
the amended claim applies; the first violation is the missing second score. -/
theorem C1_first_violation_witness :
    (∃ e, violates ⟨"a", "b", "2", "50", "", "", ""⟩ 2 e ∧
      (∀ e', violates ⟨"a", "b", "2", "50", "", "", ""⟩ 2 e' → rank e ≤ rank e') ∧
      validate_inputs ⟨"a", "b", "2", "50", "", "", ""⟩ =
        .ok (noneTuple, some (msgOf e))) ∨
    ((∀ e, ¬ violates ⟨"a", "b", "2", "50", "", "", ""⟩ 2 e) ∧ ∃ s : List Int,
      validate_inputs ⟨"a", "b", "2", "50", "", "", ""⟩ =
        .ok ((some "a", some "b", some (2 : Int), some s), none) ∧
      s.length = 2 ∧
      (∀ k, k < 2 → pyInt (scoreText ⟨"a", "b", "2", "50", "", "", ""⟩ k) =
        some (s.getD k 0)) ∧
      ∀ v ∈ s, 0 ≤ v ∧ v ≤ 100) :=
  C1_first_violation ⟨"a", "b", "2", "50", "", "", ""⟩ 2
    (Or.inr ⟨rfl, by decide, by decide⟩)

/-- C2: whenever validation succeeds (scores of length equal to the attempt
count `n ≥ 1`, each in [0,100]), the computed summary consists of the average
`sum/n` correctly rounded to hundredths and rendered with exactly two
decimal places, the maximum score, and the minimum score, each as text. -/
theorem C2_summary_correct (f : Form) (a b : String) (n : Int) (s : List Int)
    (h : validate_inputs f = .ok ((some a, some b, some n, some s), none))
    (hn : 1 ≤ n) :
    ∃ t best low,
      scores_summary f = .ok (some (renderCenti t, toString best, toString low)) ∧
      (s.length : Int) = n ∧ n ≤ 4 ∧
      best ∈ s ∧ (∀ v ∈ s, v ≤ best) ∧
      low ∈ s ∧ (∀ v ∈ s, low ≤ v) ∧
      2 * n * t ≤ 200 * s.sum + n ∧ 200 * s.sum ≤ 2 * n * t + n := by
  obtain ⟨-, -, -, -, hloop, -, -, -⟩ := validate_ok_record f a b n s none h
  obtain ⟨hlen, hall⟩ := scoresFrom_ok_spec _ _ _ _ hloop
  have hlen4 : (score_inputs f).length = 4 := rfl
  have hn4 : n ≤ 4 := by
    rcases scoresFrom_ok_bound _ _ _ _ hloop with h0 | hb
    · omega
    · rw [hlen4] at hb
      omega
  have hlint : (s.length : Int) = n := by
    rw [hlen]
    omega
  cases s with
  | nil =>
    exfalso
    simp at hlen
    omega
  | cons x rest =>
    have hsum := scores_summary_of_record f a b n x rest h
    have hS : (x :: rest).foldl (· + ·) 0 = (x :: rest).sum := by
      rw [foldl_add_eq_sum]
      ring
    have hteq : (200 * ((x :: rest).foldl (· + ·) 0) +
        ((x :: rest).length : Int)) / (2 * ((x :: rest).length : Int)) =
        (200 * (x :: rest).sum + n) / (2 * n) := by
      rw [hS, hlint]
    obtain ⟨hb1, hb2⟩ := centi_round_bounds ((x :: rest).sum) n (by omega)
    refine ⟨_, _, _, hsum, hlint, hn4, ?_, ?_, ?_, ?_, ?_, ?_⟩
    · exact foldl_max_mem rest x
    · intro v hv
      rcases List.mem_cons.mp hv with rfl | hv'
      · exact (foldl_max_spec rest v).1
      · exact (foldl_max_spec rest x).2 v hv'
    · exact foldl_min_mem rest x
    · intro v hv
      rcases List.mem_cons.mp hv with rfl | hv'
      · exact (foldl_min_spec rest v).1
      · exact (foldl_min_spec rest x).2 v hv'
    · rw [hteq]
      exact hb1
    · rw [hteq]
      exact hb2

/-- C2, witness: attempts 3 with scores 100, 0, 55 (the worked example of the
specification). -/
theorem C2_summary_correct_witness :
    ∃ t best low,
      scores_summary ⟨"a", "b", "3", "100", "0", "55", ""⟩ =
        .ok (some (renderCenti t, toString best, toString low)) ∧
      (([100, 0, 55] : List Int).length : Int) = 3 ∧ (3 : Int) ≤ 4 ∧
      best ∈ ([100, 0, 55] : List Int) ∧
      (∀ v ∈ ([100, 0, 55] : List Int), v ≤ best) ∧
      low ∈ ([100, 0, 55] : List Int) ∧
      (∀ v ∈ ([100, 0, 55] : List Int), low ≤ v) ∧
      2 * 3 * t ≤ 200 * ([100, 0, 55] : List Int).sum + 3 ∧
      200 * ([100, 0, 55] : List Int).sum ≤ 2 * 3 * t + 3 :=
  C2_summary_correct ⟨"a", "b", "3", "100", "0", "55", ""⟩ "a" "b" 3 [100, 0, 55]
    rfl (by decide)

/-- C3: the grade classifier is a pure total function on the integers
returning 'A' iff s ≥ 90, 'B' iff 80 ≤ s < 90, 'C' iff 70 ≤ s < 80,
'D' iff 60 ≤ s < 70, and 'F' iff s < 60. -/
theorem C3_grade_thresholds (s : Int) :
    (grade s = "A" ↔ 90 ≤ s) ∧
    (grade s = "B" ↔ 80 ≤ s ∧ s < 90) ∧
    (grade s = "C" ↔ 70 ≤ s ∧ s < 80) ∧
    (grade s = "D" ↔ 60 ≤ s ∧ s < 70) ∧
    (grade s = "F" ↔ s < 60) := by
  unfold grade
  split_ifs with h1 h2 h3 h4 <;>
    refine ⟨⟨fun hx => ?_, fun hx => ?_⟩, ⟨fun hx => ?_, fun hx => ?_⟩,
      ⟨fun hx => ?_, fun hx => ?_⟩, ⟨fun hx => ?_, fun hx => ?_⟩,
      ⟨fun hx => ?_, fun hx => ?_⟩⟩ <;>
    first
      | rfl
      | omega
      | (exfalso; revert hx; decide)

/-- C4: saving a validated record (attempt count `n ≥ 1`) appends exactly one
row `[first, last, scores…, "NA" padding to 4 attempt columns, best, average,
low]`, prefixing the header row exactly when the file does not yet exist. -/
theorem C4_save_appends_row (f : Form) (fs : Option (List (List String)))
    (a b : String) (n : Int) (s : List Int)
    (h : validate_inputs f = .ok ((some a, some b, some n, some s), none))
    (hn : 1 ≤ n) :
    ∃ best avg low, scores_summary f = .ok (some (avg, best, low)) ∧
      save_to_csv f fs = ⟨some ((match fs with
          | none => [csvHeaders]
          | some rows => rows) ++
        [[a, b] ++ s.map toString ++ List.replicate (4 - n).toNat "NA" ++
          [best, avg, low]]), .ok (some "Data saved to grades.csv!")⟩ :=
  save_spec f fs a b n s h hn

/-- C4, witness: saving attempts 3 with scores 100, 0, 55 into a
non-existent file writes the header and the fully rendered row. -/
theorem C4_save_appends_row_witness :
    ∃ best avg low,
      scores_summary ⟨"a", "b", "3", "100", "0", "55", ""⟩ =
        .ok (some (avg, best, low)) ∧
      save_to_csv ⟨"a", "b", "3", "100", "0", "55", ""⟩ none =
        ⟨some ([csvHeaders] ++
          [["a", "b"] ++ ["100", "0", "55"] ++ ["NA"] ++ [best, avg, low]]),
         .ok (some "Data saved to grades.csv!")⟩ :=
  C4_save_appends_row ⟨"a", "b", "3", "100", "0", "55", ""⟩ none "a" "b" 3
    [100, 0, 55] rfl (by decide)

/-- C5: appending two validated records starting from a non-existent file
yields exactly three rows: the header followed by the two data rows; the
second append writes no second header. -/
theorem C5_two_appends_three_lines (f1 f2 : Form)
    (a1 b1 a2 b2 : String) (n1 n2 : Int) (s1 s2 : List Int)
    (h1 : validate_inputs f1 = .ok ((some a1, some b1, some n1, some s1), none))
    (hn1 : 1 ≤ n1)
    (h2 : validate_inputs f2 = .ok ((some a2, some b2, some n2, some s2), none))
    (hn2 : 1 ≤ n2) :
    ∃ row1 row2,
      (save_to_csv f1 none).fs = some [csvHeaders, row1] ∧
      (save_to_csv f2 (save_to_csv f1 none).fs).fs =
        some [csvHeaders, row1, row2] ∧
      ∀ rows, (save_to_csv f2 (save_to_csv f1 none).fs).fs = some rows →
        rows.length = 3 := by
  obtain ⟨best1, avg1, low1, -, hsave1⟩ := save_spec f1 none a1 b1 n1 s1 h1 hn1
  have hfs1 : (save_to_csv f1 none).fs =
      some [csvHeaders, [a1, b1] ++ s1.map toString ++
        List.replicate (4 - n1).toNat "NA" ++ [best1, avg1, low1]] := by
    rw [hsave1]
    rfl
  obtain ⟨best2, avg2, low2, -, hsave2⟩ :=
    save_spec f2 ((save_to_csv f1 none).fs) a2 b2 n2 s2 h2 hn2
  have hfs2 : (save_to_csv f2 (save_to_csv f1 none).fs).fs =
      some [csvHeaders,
        [a1, b1] ++ s1.map toString ++
          List.replicate (4 - n1).toNat "NA" ++ [best1, avg1, low1],
        [a2, b2] ++ s2.map toString ++
          List.replicate (4 - n2).toNat "NA" ++ [best2, avg2, low2]] := by
    rw [hsave2, hfs1]
    rfl
  refine ⟨_, _, hfs1, hfs2, ?_⟩
  intro rows hrows
  rw [hfs2] at hrows
  injection hrows with hrows
  rw [← hrows]
  rfl

/-- C5, witness: two concrete records appended from a non-existent file. -/
theorem C5_two_appends_three_lines_witness :
    ∃ row1 row2,
      (save_to_csv ⟨"a", "b", "3", "100", "0", "55", ""⟩ none).fs =
        some [csvHeaders, row1] ∧
      (save_to_csv ⟨"c", "d", "1", "7", "", "", ""⟩
        (save_to_csv ⟨"a", "b", "3", "100", "0", "55", ""⟩ none).fs).fs =
        some [csvHeaders, row1, row2] ∧
      ∀ rows, (save_to_csv ⟨"c", "d", "1", "7", "", "", ""⟩
        (save_to_csv ⟨"a", "b", "3", "100", "0", "55", ""⟩ none).fs).fs =
          some rows → rows.length = 3 :=
  C5_two_appends_three_lines ⟨"a", "b", "3", "100", "0", "55", ""⟩
    ⟨"c", "d", "1", "7", "", "", ""⟩ "a" "b" "c" "d" 3 1 [100, 0, 55] [7]
    rfl (by decide) rfl (by decide)

/-- C6: submitting with an empty first-name field shows exactly the message
"Please provide the first name" and leaves the CSV file unchanged. -/
theorem C6_empty_first_name (f : Form) (fs : Option (List (List String)))
    (hf : f.first_name_input = "") :
    validate_inputs f = .ok (noneTuple, some "Please provide the first name") ∧
    save_to_csv f fs = ⟨fs, .ok (some "Please provide the first name")⟩ := by
  have hval : validate_inputs f =
      .ok (noneTuple, some "Please provide the first name") := by
    unfold validate_inputs
    rw [if_pos hf]
  refine ⟨hval, ?_⟩
  unfold save_to_csv
  rw [hval]
  rfl

/-- C6, witness: a concrete form with empty first name and a non-empty
existing file. -/
theorem C6_empty_first_name_witness :
    validate_inputs ⟨"", "b", "3", "100", "0", "55", ""⟩ =
      .ok (noneTuple, some "Please provide the first name") ∧
    save_to_csv ⟨"", "b", "3", "100", "0", "55", ""⟩ (some [csvHeaders]) =
      ⟨some [csvHeaders], .ok (some "Please provide the first name")⟩ :=
  C6_empty_first_name ⟨"", "b", "3", "100", "0", "55", ""⟩ (some [csvHeaders]) rfl

/-- C7: if validation reaches attempt `i` (names and attempt count filled,
all earlier attempts valid) and attempt `i`'s score text is non-empty but not
an integer, validation shows the format error naming attempt `i + 1` and
returns the all-`None` tuple. -/
theorem C7_nonint_score_names_attempt (f : Form) (n : Int) (i : Nat)
    (hf : f.first_name_input ≠ "") (hl : f.last_name_input ≠ "")
    (hpy : pyInt f.attempts_input = some n)
    (hi : (i : Int) < n) (hi4 : i < 4)
    (hearly : ∀ k, k < i → scoreOk (score_inputs f) k)
    (ht : scoreText f i ≠ "") (hp : pyInt (scoreText f i) = none) :
    validate_inputs f = .ok (noneTuple,
      some ("Invalid score for attempt " ++ toString (i + 1) ++
        ". Please enter a valid number.")) := by
  unfold scoreText at ht hp
  have ha : f.attempts_input ≠ "" := by
    intro h0
    rw [h0, pyInt_empty] at hpy
    exact Option.noConfusion hpy
  have hbad : ¬ scoreOk (score_inputs f) i := by
    rintro ⟨-, v, hv, -⟩
    rw [hp] at hv
    exact Option.noConfusion hv
  have hlen4 : (score_inputs f).length = 4 := rfl
  have hloop := scoresFrom_first_bad (score_inputs f) n.toNat 0 i (Nat.zero_le i)
    (by omega) (by omega) (fun k hk1 hk2 => hearly k hk2) hbad
  have herr : scoreErr (score_inputs f) i = "Invalid score for attempt " ++
      toString (i + 1) ++ ". Please enter a valid number." := by
    unfold scoreErr
    rw [if_neg ht, hp]
  unfold validate_inputs
  rw [if_neg hf, if_neg hl, if_neg ha, hpy]
  dsimp only
  rw [hloop, herr]

/-- C7, witness: attempts 2 with first score "50" and second score "abc"
yields the format error naming attempt 2. -/
theorem C7_nonint_score_names_attempt_witness :
    validate_inputs ⟨"a", "b", "2", "50", "abc", "", ""⟩ = .ok (noneTuple,
      some ("Invalid score for attempt " ++ toString (1 + 1) ++
        ". Please enter a valid number.")) :=
  C7_nonint_score_names_attempt ⟨"a", "b", "2", "50", "abc", "", ""⟩ 2 1
    (by decide) (by decide) rfl (by decide) (by decide)
    (fun k hk => by
      interval_cases k
      exact ⟨by decide, 50, rfl, by decide, by decide⟩)
    (by decide) rfl

/-- C8, counterexample: the claim says no raw input makes validation raise,
but a non-numeric attempt-count text raises `ValueError` (uncaught `int()` at
logic.py line 138) and an attempt count of 5 indexes `score_inputs` out of
bounds (`IndexError`). -/
theorem C8_counterexample :
    validate_inputs ⟨"a", "b", "abc", "", "", "", ""⟩ = .error .valueError ∧
    validate_inputs ⟨"a", "b", "5", "1", "1", "1", "1"⟩ = .error .indexError :=
  ⟨rfl, rfl⟩

/-- C8 (amended): for every raw input whose attempt-count text is empty or
parses as an integer at most 4, validation recovers every error locally: it
never raises, and returns either the all-`None` tuple together with a
user-facing message, or a fully valid record.  (Non-numeric attempt counts
and counts above 4 are excluded only by the UI input mask and do crash
validation.) -/
theorem C8_validation_recovers_locally (f : Form)
    (hcase : f.attempts_input = "" ∨
      ∃ n : Int, pyInt f.attempts_input = some n ∧ n ≤ 4) :
    ∃ out, validate_inputs f = .ok out ∧
      ((out.1 = noneTuple ∧ ∃ m, out.2 = some m) ∨
       (∃ n s, out = ((some f.first_name_input, some f.last_name_input,
          some n, some s), none) ∧ s.length = n.toNat ∧
         ∀ v ∈ s, 0 ≤ v ∧ v ≤ 100)) := by
  obtain ⟨out, hout⟩ := validate_total f hcase
  exact ⟨out, hout, validate_ok_shape f out hout⟩

/-- C8, witness: the all-empty form is recovered locally. -/
theorem C8_validation_recovers_locally_witness :
    ∃ out, validate_inputs ⟨"", "", "", "", "", "", ""⟩ = .ok out ∧
      ((out.1 = noneTuple ∧ ∃ m, out.2 = some m) ∨
       (∃ n s, out = ((some "", some "", some n, some s), none) ∧
         s.length = n.toNat ∧ ∀ v ∈ s, 0 ≤ v ∧ v ≤ 100)) :=
  C8_validation_recovers_locally ⟨"", "", "", "", "", "", ""⟩ (Or.inl rfl)

/-- C9: whenever validation fails (all-`None` tuple, or an exception), the
save handler leaves the file untouched and the output handler leaves the
results table untouched; nothing partially valid is persisted or displayed. -/
theorem C9_no_persist_on_invalid (f : Form) (fs : Option (List (List String)))
    (tbl : Table)
    (hfail : (∃ m, validate_inputs f = .ok (noneTuple, some m)) ∨
      ∃ e, validate_inputs f = .error e) :
    (save_to_csv f fs).fs = fs ∧ (output_current_data f tbl).1 = tbl := by
  rcases hfail with ⟨m, hm⟩ | ⟨e, he⟩
  · constructor
    · unfold save_to_csv
      rw [hm]
      rfl
    · unfold output_current_data
      rw [hm]
      rfl
  · constructor
    · unfold save_to_csv
      rw [he]
    · unfold output_current_data
      rw [he]

/-- C9, witness: a form with empty first name changes neither an existing
file nor the table. -/
theorem C9_no_persist_on_invalid_witness :
    (save_to_csv ⟨"", "b", "1", "9", "", "", ""⟩ (some [csvHeaders])).fs =
      some [csvHeaders] ∧
    (output_current_data ⟨"", "b", "1", "9", "", "", ""⟩ ⟨0, [], []⟩).1 =
      ⟨0, [], []⟩ :=
  C9_no_persist_on_invalid ⟨"", "b", "1", "9", "", "", ""⟩ (some [csvHeaders])
    ⟨0, [], []⟩ (Or.inl ⟨"Please provide the first name", rfl⟩)

/-- C10, counterexample: with attempt-count text "-2", `validate_inputs`
returns `(some "a", some "b", some (-2), some [])` — all components non-`None`
but the scores list has length 0, not the returned attempt count −2 — so the
claimed result shape is violated. -/
theorem C10_counterexample :
    validate_inputs ⟨"a", "b", "-2", "", "", "", ""⟩ =
      .ok ((some "a", some "b", some (-2), some []), none) ∧
    ¬ ∀ out, validate_inputs ⟨"a", "b", "-2", "", "", "", ""⟩ = .ok out →
        out.1 = noneTuple ∨
        ∃ (a : String) (b : String) (n : Int) (s : List Int),
          out.1 = (some a, some b, some n, some s) ∧
          (s.length : Int) = n ∧ ∀ v ∈ s, 0 ≤ v ∧ v ≤ 100 := by
  refine ⟨rfl, fun hclaim => ?_⟩
  rcases hclaim _ rfl with h1 | ⟨a, b, n, s, h1, h2, h3⟩
  · simp [noneTuple] at h1
  · simp only [Prod.mk.injEq, Option.some.injEq] at h1
    obtain ⟨-, -, hn, hs⟩ := h1
    rw [← hn, ← hs] at h2
    simp at h2
    exact absurd h2 (by decide)

/-- C10 (amended): `validate_inputs` returns either the all-`None` tuple
(with a message), or four non-`None` components in which every score lies in
[0,100] and the scores list has length `max(count, 0)` — equal to the
returned attempt count whenever that count is non-negative; no mixed
partially-`None` result is ever returned. -/
theorem C10_result_shape (f : Form) (out : VTuple × Option String)
    (h : validate_inputs f = .ok out) :
    (out.1 = noneTuple ∧ ∃ m, out.2 = some m) ∨
    (∃ n s, out = ((some f.first_name_input, some f.last_name_input,
        some n, some s), none) ∧
      s.length = n.toNat ∧ ∀ v ∈ s, 0 ≤ v ∧ v ≤ 100) :=
  validate_ok_shape f out h

/-- C10, witness: a valid single-attempt form produces the record shape. -/
theorem C10_result_shape_witness :
    ((((some "a", some "b", some (1 : Int), some ([50] : List Int)),
        (none : Option String)) : VTuple × Option String).1 = noneTuple ∧
      ∃ m, (((some "a", some "b", some (1 : Int), some ([50] : List Int)),
        (none : Option String)) : VTuple × Option String).2 = some m) ∨
    (∃ n s, (((some "a", some "b", some (1 : Int), some ([50] : List Int)),
        (none : Option String)) : VTuple × Option String) =
      ((some "a", some "b", some n, some s), none) ∧
      s.length = n.toNat ∧ ∀ v ∈ s, 0 ≤ v ∧ v ≤ 100) :=
  C10_result_shape ⟨"a", "b", "1", "50", "", "", ""⟩
    ((some "a", some "b", some 1, some [50]), none) rfl

end GradeApp
